import Mathlib

/-!
Verification development for `interpreterv4.py`, a tree-walking interpreter
for a small statically-typed language (suffix-typed identifiers, cell-based
environments, a heap of structural objects, closures by environment
snapshot, pass-by-reference parameters, overloading by parameter types).

Shallow embedding conventions:
* Python `Cell` objects are reified as indices (`Nat`) into a global cell
  store `Store` (a next-counter plus a total map); `Cell.get`/`Cell.set`
  become reads/writes of the store at that index.  This preserves the
  aliasing structure the source builds via shared `Cell` objects.
* The environment stack `Environment.env` is a list of frames; a frame is a
  list of blocks; a block is an association list name -> cell index.  The
  Lean lists store the MOST RECENT element first (top frame first, innermost
  block first), i.e. in the order Python iterates them via `reversed(...)`;
  Python's `env[-1]` is the head, Python's `frame[0]` (the function-scope
  block) is the last element.
* The heap `self.heap` is an association list object-id -> field table; a
  field table is an association list field-name -> cell index.
* Interpreter errors raised through the host facade
  (`super().error(kind, msg)`) are modelled by `Outcome.err kind msg`;
  an unhandled Python exception (e.g. `ZeroDivisionError`, `IndexError` on
  `name[-1]` for an empty name, Python recursion overflow) is modelled by
  `Outcome.crash`.
* `object_satisfies_interface` recurses through object field values and can
  diverge in Python on cyclic object graphs; it is embedded with an explicit
  fuel parameter, exhaustion of which is a `crash` (Python RecursionError).
-/

/-- Error kinds of the host facade: `ErrorType.NAME_ERROR`,
`ErrorType.TYPE_ERROR`, `ErrorType.FAULT_ERROR`. -/
inductive ErrKind where
  | nameErr
  | typeErr
  | faultErr
deriving DecidableEq, Repr

/-- Result of an interpreter step: a value, an aborting interpreter error
(kind and message), or an unhandled host exception. -/
inductive Outcome (α : Type) where
  | ok (a : α)
  | err (k : ErrKind) (msg : String)
  | crash
deriving DecidableEq, Repr

def Outcome.bind {α β : Type} : Outcome α → (α → Outcome β) → Outcome β
  | .ok a, f => f a
  | .err k m, _ => .err k m
  | .crash, _ => .crash

instance : Monad Outcome where
  pure := .ok
  bind := Outcome.bind

/-- The `Type` enum of the source (`NIL INT STRING BOOL VOID OBJECT
FUNCTION`).  `Ty.nil` is never the tag of a constructed `Value` in the
source except the dead `Value()` default in `__run_while`. -/
inductive Ty where
  | nil
  | int
  | string
  | bool
  | void
  | object
  | function
deriving DecidableEq, Repr

/-- A formal parameter AST node after function-table construction: its
`name`, `ref` flag, and the attached `declared_type` / `interface`
attributes. -/
structure Param where
  name : String
  ref : Bool
  declaredType : Ty
  interface : Option String
deriving DecidableEq, Repr

/-- Environment data: a block maps identifiers to cell indices. -/
abbrev Block := List (String × Nat)
/-- A frame is a list of blocks, innermost first (reverse of the Python
list; Python `frame[0]`, the function-scope block, is the last entry). -/
abbrev Frame := List Block
/-- The environment stack, top (currently executing) frame first (reverse
of the Python list). -/
abbrev Env := List Frame

/-- A function AST node (`func_def`) with the attributes the interpreter
attaches during table construction.  `astId` models Python object identity
of the AST node (`is` comparisons); `isFuncNode` models
`elem_type == self.FUNC_NODE`, true exactly for anonymous function
literals. -/
structure FuncDef where
  astId : Nat
  isFuncNode : Bool
  name : String
  args : List Param
  returnType : Ty
  returnInterface : Option String
  paramTypes : List Ty
deriving DecidableEq, Repr

/-- The source's `FunctionValue(func_ast, param_types, closure_env)`;
`mkId` models the Python object identity of the `FunctionValue` itself
(lambda closures compare by `is`). -/
structure FunctionValue where
  mkId : Nat
  funcAst : FuncDef
  paramTypes : List Ty
  closureEnv : Option Env
deriving DecidableEq, Repr

/-- A tagged `Value(t, v)`.  `object none` / `function none` are the nil
sentinels (payload `None`). -/
inductive Value where
  | int (n : Int)
  | str (s : String)
  | bool (b : Bool)
  | voidV
  | object (id : Option Nat)
  | function (f : Option FunctionValue)
deriving DecidableEq, Repr

/-- The tag `val.t` of a value. -/
def tagOf : Value → Ty
  | .int _ => .int
  | .str _ => .string
  | .bool _ => .bool
  | .voidV => .void
  | .object _ => .object
  | .function _ => .function

/-- `is_nil_value`: tag is Object or Function and payload is `None`. -/
def is_nil_value : Value → Bool
  | .object none => true
  | .function none => true
  | _ => false

/-- The global cell store: all `Cell` objects ever allocated, indexed by
allocation order.  `mem i` for `i ≥ next` is junk (never read by
well-formed states). -/
structure Store where
  next : Nat
  mem : Nat → Value

/-- Allocate a fresh cell (`Cell(value)`) and return its index. -/
def Store.alloc (st : Store) (v : Value) : Store × Nat :=
  ({ next := st.next + 1
     mem := fun i => if i = st.next then v else st.mem i }, st.next)

/-- `Cell.set`: overwrite the cell at index `c`. -/
def Store.write (st : Store) (c : Nat) (v : Value) : Store :=
  { st with mem := fun i => if i = c then v else st.mem i }

/-- Field table of one heap object: field name -> cell index. -/
abbrev Fields := List (String × Nat)
/-- The heap `self.heap`: object id -> field table. -/
abbrev Heap := List (Nat × Fields)

/-- Dictionary lookup in an association list (first match). -/
def alookup {α : Type} (l : List (String × α)) (n : String) : Option α :=
  match l with
  | [] => none
  | (m, a) :: rest => if m = n then some a else alookup rest n

/-- Heap lookup `self.heap.get(obj_id)`. -/
def heapGet (h : Heap) (oid : Nat) : Option Fields :=
  match h with
  | [] => none
  | (i, f) :: rest => if i = oid then some f else heapGet rest oid

/-- Heap update: replace the field table of `oid`. -/
def heapSet (h : Heap) (oid : Nat) (f : Fields) : Heap :=
  match h with
  | [] => []
  | (i, g) :: rest => if i = oid then (i, f) :: rest else (i, g) :: heapSet rest oid f

/-- Find a name in one block (`varname in block` / `block[varname]`). -/
def blockFind (b : Block) (n : String) : Option Nat := alookup b n

/-- `Environment.get_current_cell`: despite its name, the source iterates
`for frame in reversed(self.env): for block in reversed(frame)`, i.e. over
ALL frames from top to bottom, blocks innermost to outermost.  In our
orientation that is plain head-first recursion. -/
def get_current_cell (e : Env) (n : String) : Option Nat :=
  match e with
  | [] => none
  | f :: rest =>
    match frameFindAll f n with
    | some c => some c
    | none => get_current_cell rest n
where
  /-- scan the blocks of one frame, innermost first. -/
  frameFindAll : Frame → String → Option Nat
    | [], _ => none
    | b :: bs, n =>
      match blockFind b n with
      | some c => some c
      | none => frameFindAll bs n

/-- `Environment.exists`: same all-frames iteration as
`get_current_cell`. -/
def env_exists (e : Env) (n : String) : Bool :=
  (get_current_cell e n).isSome

/-- `Environment.get`: reads `self.env[-1]` only — this one scans just the
top frame (it is dead code in the source; kept as evidence of the intended
frame-local lookup). -/
def env_get (e : Env) (n : String) (st : Store) : Option Value :=
  match e with
  | [] => none
  | f :: _ =>
    match get_current_cell.frameFindAll f n with
    | some c => some (st.mem c)
    | none => none

/-- `Environment.set`: iterates over ALL frames (top to bottom) and writes
the first cell bound to `n`; returns `none` for the `False` (not found)
case. -/
def env_set (e : Env) (n : String) (v : Value) (st : Store) : Option Store :=
  match get_current_cell e n with
  | some c => some (st.write c v)
  | none => none

/-- `Environment.enter_func`: push a fresh frame with one empty block. -/
def enter_func (e : Env) : Env := [[]] :: e

/-- `Environment.exists_in_function_scope`: membership in block 0 (the
function-scope block, the LAST block in our innermost-first order) of the
top frame. -/
def exists_in_function_scope (e : Env) (n : String) : Bool :=
  match e with
  | [] => false
  | f :: _ => (blockFind (f.getLastD []) n).isSome

/-- Replace the function-scope block (last entry) of a frame. -/
def setFuncBlock (f : Frame) (b : Block) : Frame :=
  f.dropLast ++ [b]

/-- `Environment.fdef_function`: allocate a fresh `Cell(initial_value)`
and insert it into the function-scope block of the top frame (`none` for
the duplicate / no-frame case). -/
def fdef_function (e : Env) (st : Store) (n : String) (v : Value) :
    Option (Env × Store) :=
  match e with
  | [] => none
  | f :: rest =>
    if exists_in_function_scope (f :: rest) n then none
    else
      let (st', c) := st.alloc v
      some (setFuncBlock f (f.getLastD [] ++ [(n, c)]) :: rest, st')

/-- `Environment.fdef_function_cell`: insert an EXISTING cell (no
allocation) into the function-scope block of the top frame. -/
def fdef_function_cell (e : Env) (n : String) (c : Nat) : Option Env :=
  match e with
  | [] => none
  | f :: rest =>
    if exists_in_function_scope (f :: rest) n then none
    else some (setFuncBlock f (f.getLastD [] ++ [(n, c)]) :: rest)

/-- `Interpreter.type_from_suffix` (lines 500-515).  `Char.isUpper` agrees
with Python's `str.isupper` on the ASCII identifiers the language uses. -/
def type_from_suffix (c : Char) (isFunc : Bool) : Outcome Ty :=
  if c = 'i' then .ok .int
  else if c = 's' then .ok .string
  else if c = 'b' then .ok .bool
  else if c = 'o' then .ok .object
  else if c = 'f' then .ok .function
  else if isFunc ∧ c = 'v' then .ok .void
  else if c.isUpper then .ok .object
  else .err .typeErr "unknown type suffix"

/-- `Interpreter.type_from_name` (lines 1186-1202).  `name[-1]` on an empty
name is a host `IndexError`, modelled as `crash`. -/
def type_from_name (name : String) : Outcome Ty :=
  match name.data.getLast? with
  | none => .crash
  | some c =>
    if c = 'i' then .ok .int
    else if c = 's' then .ok .string
    else if c = 'b' then .ok .bool
    else if c = 'o' then .ok .object
    else if c = 'f' then .ok .function
    else if c.isUpper then .ok .object
    else if c = 'v' then .err .typeErr "cannot have variable of void type"
    else .err .typeErr "unknown type suffix"

/-- `Interpreter.interface_from_suffix`: an uppercase suffix names the
interface, anything else carries no interface. -/
def interface_from_suffix (c : Char) : Option String :=
  if c.isUpper then some (String.singleton c) else none

/-- `Interpreter.interface_from_name`: interface of `name[-1]`. -/
def interface_from_name (name : String) : Outcome (Option String) :=
  match name.data.getLast? with
  | none => .crash
  | some c => .ok (interface_from_suffix c)

/-- Python `qname.split('.')` on the embedding's strings, by structural
recursion over the character list (`"a.b" -> ["a","b"]`, a name without a
dot yields the one-element list). -/
def splitCharsOnDot : List Char → List (List Char)
  | [] => [[]]
  | c :: cs =>
    let r := splitCharsOnDot cs
    if c = '.' then [] :: r
    else
      match r with
      | [] => [[c]]
      | w :: ws => (c :: w) :: ws

/-- `qname.split('.')` as a list of strings. -/
def splitOnDot (s : String) : List String :=
  (splitCharsOnDot s.data).map (fun w => ⟨w⟩)

/-- `Interpreter.interface_for_qname` (lines 339-345): the interface of the
base name for a plain name, of the last segment for a dotted name. -/
def interface_for_qname (qname : String) : Outcome (Option String) :=
  let parts := splitOnDot qname
  if parts.length = 1 then interface_from_name (parts.headD "")
  else interface_from_name (parts.getLastD "")

/-- An interface-field spec as built by `create_interface_table`. -/
inductive FieldSpec where
  | var (type : Ty) (interface : Option String)
  | func (params : List (Ty × Option String × Bool))
deriving DecidableEq, Repr

/-- Interface table entry: the `"fields"` dictionary in source order. -/
abbrev InterfaceDef := List (String × FieldSpec)

/-- Interpreter state: the fields of `self` that the embedded operations
read and write (the cell store reifies Python `Cell` objects). -/
structure Interp where
  env : Env
  store : Store
  heap : Heap
  funcs : List ((String × List Ty) × FuncDef)
  interfaces : List (String × InterfaceDef)

/-- One formal/required parameter comparison inside the `func`-field branch
of `object_satisfies_interface` (lines 194-211). -/
def paramConform (formal : Param) (required : Ty × Option String × Bool) : Bool :=
  let (rtype, rinterface, rref) := required
  if formal.ref ≠ rref then false
  else if rtype = .object ∧ rinterface = none then
    formal.declaredType = .object
  else if rtype = .object ∧ rinterface ≠ none then
    formal.declaredType = .object ∧ formal.interface = rinterface
  else
    formal.declaredType = rtype ∧ formal.interface = rinterface

/-- The parameter-list comparison of a `func` interface field: same length
and position-wise `paramConform`. -/
def paramsConform (formals : List Param) (required : List (Ty × Option String × Bool)) : Bool :=
  if formals.length ≠ required.length then false
  else go formals required
where
  go : List Param → List (Ty × Option String × Bool) → Bool
    | [], _ => true
    | _, [] => true
    | f :: fs, r :: rs => paramConform f r && go fs rs

/-- Check of one interface field against an object's field table
(lines 173-213); `check` is the recursive conformance test applied to a
`var` field's sub-interface. -/
def ifaceFieldOk (s : Interp) (check : Option String → Value → Outcome Bool)
    (objflds : Fields) (fname : String) (spec : FieldSpec) : Outcome Bool :=
  match alookup objflds fname with
  | none => .ok false
  | some c =>
    let fieldVal := s.store.mem c
    match spec with
    | .var t i? =>
      if tagOf fieldVal ≠ t then .ok false
      else
        match i? with
        | none => .ok true
        | some fi =>
          if tagOf fieldVal ≠ .object then .ok false
          else check (some fi) fieldVal
    | .func required =>
      match fieldVal with
      | .function (some fv) => .ok (paramsConform fv.funcAst.args required)
      | _ => .ok false

/-- The field loop of `object_satisfies_interface`: all fields must pass;
interpreter errors raised inside a check propagate. -/
def ifaceFieldsOk (s : Interp) (check : Option String → Value → Outcome Bool)
    (objflds : Fields) : List (String × FieldSpec) → Outcome Bool
  | [] => .ok true
  | (fn, sp) :: rest => do
    let b ← ifaceFieldOk s check objflds fn sp
    if b then ifaceFieldsOk s check objflds rest else pure false

/-- `Interpreter.object_satisfies_interface` (lines 160-214), with fuel for
the recursion through object field values (Python can hit RecursionError on
cyclic object graphs; that is the `crash` case). -/
def object_satisfies_interface (s : Interp) : Nat → Option String → Value → Outcome Bool
  | 0, _, _ => .crash
  | fuel + 1, iname?, val =>
    match iname? with
    | none => .ok true
    | some iname =>
      match val with
      | .object none => .ok true
      | .object (some oid) =>
        match alookup s.interfaces iname with
        | none => .err .nameErr "unknown interface in object_satisfies_interface"
        | some idef =>
          match heapGet s.heap oid with
          | none => .err .faultErr "invalid object reference in object_satisfies_interface"
          | some objflds =>
            ifaceFieldsOk s (object_satisfies_interface s fuel) objflds idef
      | _ => .ok false

/-- One intermediate segment of a dotted-name walk — the loop body shared
verbatim by `get_qname_cell` (lines 313-326) and `set_qname_value`
(lines 403-419); only the message wording differs between the two sites. -/
def interStep (s : Interp) (curr : Value) (field : String) : Outcome Value :=
  match curr with
  | .object none => .err .faultErr "nil derefeerence in dotted access"
  | .object (some oid) =>
    match heapGet s.heap oid with
    | none => .err .faultErr "invalid object reference"
    | some objflds =>
      match alookup objflds field with
      | none => .err .nameErr "field not defined"
      | some c => do
        let t ← type_from_name field
        if t ≠ .object then Outcome.err .typeErr "intermediate dotted field must be object typed"
        else pure (s.store.mem c)
  | _ => .err .typeErr "intermediate of da dot is not an object"

/-- The intermediate loop: fold `interStep` over `parts[1:-1]`. -/
def interWalk (s : Interp) (curr : Value) : List String → Outcome Value
  | [] => .ok curr
  | f :: fs => do
    let v ← interStep s curr f
    interWalk s v fs

/-- Final-segment handling of `get_qname_cell` (lines 327-337): the
terminal value must be a non-nil live object holding the field. -/
def finalStepRead (s : Interp) (curr : Value) (finalField : String) : Outcome Nat :=
  match curr with
  | .object none => .err .faultErr "nil derefeerence in dotted access"
  | .object (some oid) =>
    match heapGet s.heap oid with
    | none => .err .faultErr "invalid object reference"
    | some objflds =>
      match alookup objflds finalField with
      | none => .err .nameErr "field not defined"
      | some c => .ok c
  | _ => .err .typeErr "final base of da dot is not an object"

/-- `Interpreter.get_qname_cell` (lines 293-337). -/
def get_qname_cell (s : Interp) (qname : String) : Outcome Nat :=
  match splitOnDot qname with
  | [] => .crash
  | base :: rest =>
    if ¬ env_exists s.env base then .err .nameErr "variable not defined"
    else if rest.isEmpty then
      match get_current_cell s.env base with
      | none => .err .nameErr "variable not defined"
      | some c => .ok c
    else do
      let bt ← type_from_name base
      if bt ≠ .object then Outcome.err .typeErr "qualified name base is not an object"
      else
        match get_current_cell s.env base with
        | none => .err .nameErr "variable not defined"
        | some bc => do
          let v ← interWalk s (s.store.mem bc) rest.dropLast
          finalStepRead s v (rest.getLastD "")

/-- One intermediate segment of `get_qname_cell_and_owner` (lines 266-279):
same checks as `interStep` but WITHOUT the trailing-suffix Type error — it
only updates the owner when the field suffix is Object (`type_from_name`
is still invoked, so its own errors, e.g. a `v` suffix, propagate). -/
def ownerStep (s : Interp) (curr : Value) (owner : Option Value) (field : String) :
    Outcome (Value × Option Value) :=
  match curr with
  | .object none => .err .faultErr "nil derefeerence in dotted access"
  | .object (some oid) =>
    match heapGet s.heap oid with
    | none => .err .faultErr "invalid object reference"
    | some objflds =>
      match alookup objflds field with
      | none => .err .nameErr "field not defined"
      | some c => do
        let v := s.store.mem c
        let t ← type_from_name field
        pure (v, if t = .object then some v else owner)
  | _ => .err .typeErr "intermediate of da dot is not an object"

/-- The loop plus final segment of `get_qname_cell_and_owner`
(lines 266-289); the returned owner is `current_val`, the terminal object
(the accumulated `owner_object_value` is not used in the source's
return). -/
def ownerResolve (s : Interp) (curr : Value) (owner : Option Value) :
    List String → String → Outcome (Nat × Value)
  | [], fin =>
    match curr with
    | .object none => .err .faultErr "nil derefeerence in dotted access"
    | .object (some oid) =>
      match heapGet s.heap oid with
      | none => .err .faultErr "invalid object reference"
      | some objflds =>
        match alookup objflds fin with
        | none => .err .nameErr "field not defined"
        | some c => .ok (c, curr)
    | _ => .err .typeErr "final base of da dot is not an object"
  | f :: fs, fin => do
    let (v, ow) ← ownerStep s curr owner f
    ownerResolve s v ow fs fin

/-- `Interpreter.get_qname_cell_and_owner` (lines 246-289): like
`get_qname_cell` but also returns the terminal owner object for receiver
binding (none for a plain name). -/
def get_qname_cell_and_owner (s : Interp) (qname : String) :
    Outcome (Nat × Option Value) :=
  match splitOnDot qname with
  | [] => .crash
  | base :: rest =>
    if ¬ env_exists s.env base then .err .nameErr "variable not defined"
    else if rest.isEmpty then
      match get_current_cell s.env base with
      | none => .err .nameErr "variable not defined"
      | some c => .ok (c, none)
    else do
      let bt ← type_from_name base
      if bt ≠ .object then Outcome.err .typeErr "qualified name base is not an object"
      else
        match get_current_cell s.env base with
        | none => .err .nameErr "variable not defined"
        | some bc => do
          let (c, ownerv) ← ownerResolve s (s.store.mem bc) none rest.dropLast (rest.getLastD "")
          pure (c, some ownerv)

/-- The nil-coercion / tag-compatibility check shared by the two branches
of `set_qname_value` (lines 356-370 and 433-447; the source repeats it
with per-site message texts). -/
def coerceForAssign (leftType : Ty) (value : Value) : Outcome Value :=
  if is_nil_value value then
    if leftType = .object ∨ leftType = .function then
      .ok (if leftType = .object then Value.object none else Value.function none)
    else .err .typeErr "type mismatch in assignment"
  else
    if leftType = .object then
      if tagOf value ≠ .object then .err .typeErr "u trying to assign non object to an object !"
      else .ok value
    else if leftType = .function then
      if tagOf value ≠ .function then .err .typeErr "u trying to assign non function to a function !"
      else .ok value
    else
      if leftType ≠ tagOf value then .err .typeErr "type mismatch in assignment"
      else .ok value

/-- The target-interface conformance check of an assignment (lines 383-385
and 456-458). -/
def checkAssignIface (s : Interp) (fuel : Nat) (expI : Option String) (value : Value) :
    Outcome Unit :=
  match expI with
  | none => .ok ()
  | some _ => do
    let ok ← object_satisfies_interface s fuel expI value
    if ok then pure () else Outcome.err .typeErr "interface mismatch in assignment"

/-- `Interpreter.set_qname_value` (lines 347-473): returns the updated cell
store and heap (a new field cell may be allocated; field-insertion position
in the table is unobservable, we prepend). -/
def set_qname_value (s : Interp) (fuel : Nat) (qname : String) (value : Value) :
    Outcome (Store × Heap) :=
  match splitOnDot qname with
  | [] => .crash
  | base :: rest =>
    if ¬ env_exists s.env base then .err .nameErr "variable not defined"
    else if rest.isEmpty then do
      let leftType ← type_from_name base
      let expI ← interface_from_name base
      let v ← coerceForAssign leftType value
      checkAssignIface s fuel expI v
      match get_current_cell s.env base with
      | none => .err .nameErr "variable not defined"
      | some c => .ok (s.store.write c v, s.heap)
    else do
      let bt ← type_from_name base
      if bt ≠ .object then Outcome.err .typeErr "base of da dot assignment must be object-typed"
      else
        match get_current_cell s.env base with
        | none => .err .nameErr "variable not defined"
        | some bc => do
          let curr ← interWalk s (s.store.mem bc) rest.dropLast
          match curr with
          | .object none => .err .faultErr "nil derefeerence in dotted assignment"
          | .object (some oid) =>
            (match heapGet s.heap oid with
            | none => .err .faultErr "invalid object reference"
            | some objflds => do
              let finalField := rest.getLastD ""
              let finalType ← type_from_name finalField
              let expI ← interface_from_name finalField
              let v ← coerceForAssign finalType value
              checkAssignIface s fuel expI v
              match alookup objflds finalField with
              | some c => .ok (s.store.write c v, s.heap)
              | none =>
                let (st', c) := s.store.alloc v
                .ok (st', heapSet s.heap oid ((finalField, c) :: objflds)))
          | _ => .err .typeErr "final base of da dot is not an object"

/-- The shape of an actual-argument expression node, as far as the call
machinery inspects it: a qualified-name expression carrying its name, or
any other expression kind (`elem_type != QUALIFIED_NAME_NODE`). -/
inductive ArgExpr where
  | qname (name : String)
  | other
deriving DecidableEq, Repr

/-- A computed parameter binding: `("ref", pname, cell)` or
`("val", pname, bind_val)` from `invoke_function`. -/
inductive Binding where
  | ref (pname : String) (cell : Nat)
  | val (pname : String) (v : Value)
deriving DecidableEq, Repr

/-- The value-stage checks of one formal/actual pair in `invoke_function`
(lines 694-705): nil rewrapping to the declared tag, tag equality
otherwise, then interface conformance of the bind value. -/
def valueChecks (s : Interp) (fuel : Nat) (formal : Param) (argVal : Value) :
    Outcome Value := do
  let bindVal ←
    if is_nil_value argVal then
      if formal.declaredType = .object ∨ formal.declaredType = .function then
        pure (if formal.declaredType = .object then Value.object none else Value.function none)
      else Outcome.err .typeErr "arg type __mismatch 477"
    else
      if tagOf argVal ≠ formal.declaredType then Outcome.err .typeErr "argument type mismatch"
      else pure argVal
  match formal.interface with
  | none => pure bindVal
  | some _ => do
    let ok ← object_satisfies_interface s fuel formal.interface bindVal
    if ok then pure bindVal else Outcome.err .typeErr "argument interface mismatch"

/-- The caller-side interface check on a `ref` argument (lines 720-723):
only performed when the formal carries an interface, and only an argument
name that CARRIES an interface is compared against it. -/
def refInterfaceCheck (expI : Option String) (actualName : String) : Outcome Unit :=
  match expI with
  | none => .ok ()
  | some _ => do
    let argI ← interface_for_qname actualName
    if argI.isSome ∧ argI ≠ expI then
      Outcome.err .typeErr "argument interface mismatch on ref arg"
    else pure ()

/-- One iteration of the binding loop of `invoke_function` (lines 686-730):
value-stage checks, then for a `ref` formal the actual must be a
qualified-name expression whose resolved cell becomes the binding; a value
formal binds the checked value. -/
def bindParam (s : Interp) (fuel : Nat) (formal : Param) (argExpr : ArgExpr)
    (argVal : Value) : Outcome Binding := do
  let bindVal ← valueChecks s fuel formal argVal
  if formal.ref then
    match argExpr with
    | .qname actualName => do
      refInterfaceCheck formal.interface actualName
      let c ← get_qname_cell s actualName
      pure (.ref formal.name c)
    | .other => Outcome.err .typeErr "ref argument must be a variable"
  else pure (.val formal.name bindVal)

/-- The activation setup of `invoke_function` (lines 743-753):
`enter_func`, optionally bind the receiver under the reserved name
`selfo`, then insert each binding into the new frame's function-scope
block — an existing cell for a ref binding, a freshly allocated cell for a
value binding. -/
def installBindings (e : Env) (st : Store) (bs : List Binding)
    (selfVal : Option Value) : Outcome (Env × Store) := do
  let e := enter_func e
  let (e, st) ←
    match selfVal with
    | none => pure (e, st)
    | some v =>
      match fdef_function e st "selfo" v with
      | none => Outcome.err .nameErr "selfo already defined? what ?????"
      | some p => pure p
  go e st bs
where
  go (e : Env) (st : Store) : List Binding → Outcome (Env × Store)
    | [] => pure (e, st)
    | .val p v :: rest =>
      match fdef_function e st p v with
      | none => Outcome.err .nameErr "variable already defined"
      | some (e', st') => go e' st' rest
    | .ref p c :: rest =>
      match fdef_function_cell e p c with
      | none => Outcome.err .nameErr "variable already defined"
      | some e' => go e' st rest

/-- The per-binding copy of `capture_env_for_lambda` (lines 886-891): a
FRESH cell for every binding; scalar tags get a copied `Value`, other tags
share the captured `Value` (for Object/Function this shares the heap id /
closure record — in the embedding, `Value` is immutable data, so both
branches store the same data in the fresh cell, exactly as observable in
Python where `Cell.set` replaces rather than mutates the payload). -/
def captureCopy (v : Value) : Value :=
  if tagOf v = .int ∨ tagOf v = .string ∨ tagOf v = .bool then v else v

def captureBlock (st : Store) : Block → Block × Store
  | [] => ([], st)
  | (n, c) :: rest =>
    let st' := (st.alloc (captureCopy (st.mem c))).1
    let tail := captureBlock st' rest
    ((n, (st.alloc (captureCopy (st.mem c))).2) :: tail.1, tail.2)

/-- Per-frame part of `capture_env_for_lambda`. -/
def captureFrame (st : Store) : Frame → Frame × Store
  | [] => ([], st)
  | b :: bs =>
    let hb := captureBlock st b
    let tail := captureFrame hb.2 bs
    (hb.1 :: tail.1, tail.2)

/-- `Interpreter.capture_env_for_lambda` (lines 880-894): rebuild the whole
environment stack, allocating a fresh cell per binding (allocation order
differs from Python's bottom-up iteration; cell contents and structure do
not). -/
def capture_env_for_lambda (st : Store) : Env → Env × Store
  | [] => ([], st)
  | f :: fs =>
    let hf := captureFrame st f
    let tail := capture_env_for_lambda hf.2 fs
    (hf.1 :: tail.1, tail.2)

/-- The equality decision of `__eval_binary_op` for `==`/`!=`
(lines 1009-1049): nil compares equal only to nil (across Object/Function
tags), objects by heap id, functions by lambda-closure identity or named
AST identity plus parameter-type tuple, everything else by tag-and-payload
with tag mismatches unequal. -/
def eqVal (l r : Value) : Bool :=
  if is_nil_value l ∧ is_nil_value r then true
  else if is_nil_value l ∨ is_nil_value r then false
  else
    match l, r with
    | .object a, .object b => a = b
    | .function (some fl), .function (some fr) =>
      if fl.funcAst.isFuncNode ∧ fr.funcAst.isFuncNode then fl.mkId = fr.mkId
      else if ¬ fl.funcAst.isFuncNode ∧ ¬ fr.funcAst.isFuncNode then
        fl.funcAst.astId = fr.funcAst.astId ∧ fl.paramTypes = fr.paramTypes
      else false
    | .int a, .int b => a = b
    | .str a, .str b => a = b
    | .bool a, .bool b => a = b
    | .voidV, .voidV => true
    | _, _ => false

/-- `Interpreter.__eval_binary_op` (lines 1000-1095).  Python `//` is FLOOR
division (`Int.fdiv`); a zero right operand raises `ZeroDivisionError`,
an unhandled host exception (`crash`). -/
def eval_binary_op (kind : String) (vl vr : Value) : Outcome Value :=
  if kind = "==" ∨ kind = "!=" then
    let eq := eqVal vl vr
    .ok (.bool (if kind = "!=" then !eq else eq))
  else
    match vl, vr with
    | .str a, .str b =>
      if kind = "+" then .ok (.str (a ++ b))
      else .err .typeErr "invalid binary operation"
    | .int a, .int b =>
      if kind = "+" then .ok (.int (a + b))
      else if kind = "-" then .ok (.int (a - b))
      else if kind = "*" then .ok (.int (a * b))
      else if kind = "/" then
        if b = 0 then .crash else .ok (.int (Int.fdiv a b))
      else if kind = "<" then .ok (.bool (a < b))
      else if kind = "<=" then .ok (.bool (a ≤ b))
      else if kind = ">" then .ok (.bool (a > b))
      else if kind = ">=" then .ok (.bool (a ≥ b))
      else .err .typeErr "invalid binary operation"
    | .bool a, .bool b =>
      if kind = "&&" then .ok (.bool (a && b))
      else if kind = "||" then .ok (.bool (a || b))
      else .err .typeErr "invalid binary operation"
    | _, _ => .err .typeErr "invalid binary operation"

/-- Python `str(payload)` for the payload of a value, as `__handle_print`
applies it in its non-Bool branch (line 673): ints print in decimal, a
`None` payload (nil object, nil function, void) prints as `None`, a
non-nil `FunctionValue` prints its host repr, supplied here as `fnRepr`
(it is address-dependent in Python). -/
def pyStrPayload (fnRepr : FunctionValue → String) : Value → String
  | .int n => toString n
  | .str s => s
  | .bool b => if b then "True" else "False"
  | .voidV => "None"
  | .object none => "None"
  | .object (some oid) => toString oid
  | .function none => "None"
  | .function (some fv) => fnRepr fv

/-- Python `str.lower()` by mapping `Char.toLower` over the characters. -/
def strLower (s : String) : String := ⟨s.data.map Char.toLower⟩

/-- Python `'.' in name`, by structural recursion over the characters. -/
def containsDot (s : String) : Bool := s.data.contains '.' 

/-- One argument's contribution to a print line (lines 670-673): Bool gets
`str(...).lower()`, everything else the plain `str(...)`. -/
def printArg (fnRepr : FunctionValue → String) (v : Value) : String :=
  if tagOf v = .bool then strLower (pyStrPayload fnRepr v)
  else pyStrPayload fnRepr v

/-- The concatenation loop of `__handle_print` (lines 666-675): all
arguments join into one output line, no separator, no error. -/
def printLine (fnRepr : FunctionValue → String) : List Value → String
  | [] => ""
  | v :: rest => printArg fnRepr v ++ printLine fnRepr rest

/-- Per-position overload test of `__run_fcall` (lines 812-821): a
nil-valued Object/Function argument matches any Object- or Function-typed
parameter; otherwise the parameter type must equal the argument's tag. -/
def argAccepted (ptype : Ty) (argVal : Value) : Bool :=
  if is_nil_value argVal then ptype = .object ∨ ptype = .function
  else ptype = tagOf argVal

/-- The inner matching loop over zipped parameter types and arguments. -/
def argsMatchParams : List Ty → List Value → Bool
  | [], _ => true
  | _, [] => true
  | p :: ps, a :: as => argAccepted p a && argsMatchParams ps as

/-- Whether one function-table entry is a candidate for the call
(lines 806-823): same name, same arity, position-wise `argAccepted`. -/
def overloadEntryMatch (name : String) (argVals : List Value)
    (entry : (String × List Ty) × FuncDef) : Bool :=
  entry.1.1 = name && entry.1.2.length = argVals.length
    && argsMatchParams entry.1.2 argVals

/-- The `potential` list built by the overload loop. -/
def overloadCandidates (funcs : List ((String × List Ty) × FuncDef))
    (name : String) (argVals : List Value) : List FuncDef :=
  (funcs.filter (overloadEntryMatch name argVals)).map (·.2)

/-- Overload resolution (lines 804-829): zero candidates or more than one
candidate are Name errors; a unique candidate is returned. -/
def resolveOverload (funcs : List ((String × List Ty) × FuncDef))
    (name : String) (argVals : List Value) : Outcome FuncDef :=
  match overloadCandidates funcs name argVals with
  | [] => .err .nameErr "function not found"
  | [fd] => .ok fd
  | _ => .err .nameErr "ambiguous function call"

/-- What `__run_fcall` decides to do, with the actual body execution (the
recursive part of the interpreter) left symbolic in the decision. -/
inductive CallDecision where
  /-- `print`: emit this one line, result Void. -/
  | printed (line : String)
  /-- `inputi`/`inputs`: optionally emit the prompt line, then read input. -/
  | inputRead (isInputi : Bool) (prompt : Option String)
  /-- static call: invoke this function-table entry, no closure, no
  receiver. -/
  | invokeStatic (fd : FuncDef)
  /-- dotted/bound-variable call: invoke this `FunctionValue` (with its
  closure snapshot) and optional receiver object. -/
  | invokeDynamic (fv : FunctionValue) (owner : Option Value)
deriving DecidableEq, Repr

/-- `Interpreter.__handle_input` (lines 648-662), up to the host read:
more than one argument is a Name error; one argument is printed as a
prompt (again with no Void check). -/
def handle_input (fnRepr : FunctionValue → String) (isInputi : Bool)
    (argVals : List Value) : Outcome CallDecision :=
  if argVals.length > 1 then .err .nameErr "too many arguments for input function"
  else if argVals.isEmpty then .ok (.inputRead isInputi none)
  else .ok (.inputRead isInputi (some (printLine fnRepr argVals)))

/-- `Interpreter.__run_fcall` (lines 764-829) as a call decision, with
argument expressions already evaluated to `argVals` (expression evaluation
is the interpreter's recursive part and is external to this function).
The built-ins short-circuit BEFORE the Void-argument check; the Void check
guards only the non-built-in paths. -/
def run_fcall_decide (s : Interp) (fnRepr : FunctionValue → String)
    (name : String) (argVals : List Value) : Outcome CallDecision :=
  if name = "inputi" ∨ name = "inputs" then
    handle_input fnRepr (name = "inputi") argVals
  else if name = "print" then
    .ok (.printed (printLine fnRepr argVals))
  else if argVals.any (fun a => tagOf a = .void) then
    .err .typeErr "void value cannot be used as argument"
  else
    let hasFrame := ¬ s.env.isEmpty
    let isDotted := containsDot name
    let isVar := hasFrame ∧ ¬ isDotted ∧ env_exists s.env name
    if isDotted ∨ isVar then do
      let (c, owner) ←
        if isDotted then get_qname_cell_and_owner s name
        else do
          let c ← get_qname_cell s name
          pure (c, none)
      let funcVal := s.store.mem c
      match funcVal with
      | .function none => .err .faultErr "calling nil func"
      | .function (some fv) =>
        if fv.paramTypes.length ≠ argVals.length then
          .err .typeErr "wrong number of arguments pal"
        else if dynArgsOk fv.paramTypes argVals then
          .ok (.invokeDynamic fv owner)
        else .err .typeErr "argument type doesnt match"
      | _ => .err .typeErr "attempt to call a non-function"
    else do
      let fd ← resolveOverload s.funcs name argVals
      pure (.invokeStatic fd)
where
  /-- the strict per-position tag check of the dynamic path
  (lines 800-802): NO nil widening here, exact tag equality. -/
  dynArgsOk : List Ty → List Value → Bool
    | [], _ => true
    | _, [] => true
    | p :: ps, a :: as => tagOf a = p && dynArgsOk ps as

/-! ### Helper lemmas about the association-list dictionaries -/

theorem alookup_mem {α : Type} {l : List (String × α)} {n : String} {a : α}
    (h : alookup l n = some a) : (n, a) ∈ l := by
  induction l with
  | nil => simp [alookup] at h
  | cons hd tl ih =>
    obtain ⟨m, b⟩ := hd
    rw [alookup] at h
    by_cases hc : m = n
    · subst hc
      simp at h
      subst h
      exact List.mem_cons_self _ _
    · simp [hc] at h
      exact List.mem_cons_of_mem _ (ih h)

theorem heapGet_mem {h : Heap} {oid : Nat} {f : Fields}
    (hg : heapGet h oid = some f) : (oid, f) ∈ h := by
  induction h with
  | nil => simp [heapGet] at hg
  | cons hd tl ih =>
    obtain ⟨i, g⟩ := hd
    rw [heapGet] at hg
    by_cases hc : i = oid
    · subst hc
      simp at hg
      subst hg
      exact List.mem_cons_self _ _
    · simp [hc] at hg
      exact List.mem_cons_of_mem _ (ih hg)

theorem alookup_append_left {α : Type} {l : List (String × α)} (l' : List (String × α))
    {n : String} {a : α} (h : alookup l n = some a) : alookup (l ++ l') n = some a := by
  induction l with
  | nil => simp [alookup] at h
  | cons hd tl ih =>
    rw [alookup] at h
    rw [List.cons_append, alookup]
    by_cases hc : hd.1 = n
    · simpa [hc] using h
    · simp [hc] at h ⊢
      exact ih h

theorem alookup_append_right {α : Type} {l : List (String × α)} (l' : List (String × α))
    {n : String} (h : alookup l n = none) : alookup (l ++ l') n = alookup l' n := by
  induction l with
  | nil => simp
  | cons hd tl ih =>
    rw [alookup] at h
    rw [List.cons_append, alookup]
    by_cases hc : hd.1 = n
    · simp [hc] at h
    · simp [hc] at h ⊢
      exact ih h

/-! ### C1 -/

/-- A two-frame environment: the current (top) frame has one empty block;
only the caller's frame binds `xi`, to cell 0, which holds `Int 41`. -/
def c1CallerFrame : Frame := [[("xi", 0)]]
def c1Env : Env := [[[]], c1CallerFrame]
def c1Store : Store := { next := 1, mem := fun _ => .int 41 }
def c1State : Interp :=
  { env := c1Env, store := c1Store, heap := [], funcs := [], interfaces := [] }

/-- C1: the claim says every name lookup (bare read, qualified-name base,
call-name bound-variable test) scans only the blocks of the top function
frame, so a binding that exists only in a caller's frame behaves as
undefined.  The code violates this: `get_current_cell`, `exists` and `set`
iterate over ALL frames (`for frame in reversed(self.env)`), so with `xi`
bound only in the caller's frame the lookup finds the caller's cell 0,
`exists` reports true (making a call name a "bound variable"), `set`
mutates the caller's cell, and `get_qname_cell` resolves the base to the
caller's cell — dynamic rather than lexical scoping.  The dead
`Environment.get` (top frame only) returns none on the same input,
matching the claimed behaviour. -/
theorem c1_lookup_crosses_frames :
    get_current_cell c1Env "xi" = some 0 ∧
    env_exists c1Env "xi" = true ∧
    env_set c1Env "xi" (.int 7) c1Store = some (c1Store.write 0 (.int 7)) ∧
    get_qname_cell c1State "xi" = .ok 0 ∧
    env_get c1Env "xi" c1Store = none := by
  refine ⟨by decide, by decide, rfl, by decide, by decide⟩

/-! ### C4 and C9: division -/

/-- C4 counterexample: the claim says `/` truncates toward zero
(`Int.tdiv`); the code computes Python's `//`, the floor quotient:
`-7 / 2` evaluates to `-4`, while truncation toward zero gives `-3`. -/
theorem c4_truncation_counterexample :
    eval_binary_op "/" (Value.int (-7)) (Value.int 2) = Outcome.ok (Value.int (-4)) ∧
    Int.tdiv (-7) 2 = -3 ∧ Value.int (-4) ≠ Value.int (-3) := by decide

/-- C4 (amended): for Int operands with nonzero divisor, `/` yields the
FLOOR quotient (Python `//`), which coincides with truncation toward zero
only when the operands are non-negative (or the division is exact). -/
theorem c4_div_is_floor (a b : Int) (h : b ≠ 0) :
    eval_binary_op "/" (.int a) (.int b) = .ok (.int (Int.fdiv a b)) := by
  simp [eval_binary_op, h]

theorem c4_div_is_floor_witness :
    eval_binary_op "/" (Value.int (-7)) (Value.int 2) = Outcome.ok (Value.int (-4)) := by
  have h := c4_div_is_floor (-7) 2 (by decide)
  simpa using h

/-- C9: Int division is total exactly on nonzero divisors: a zero divisor
produces the unhandled host `ZeroDivisionError` (`crash`), never an
interpreter-level Name/Type/Fault error through the error facade. -/
theorem c9_div_zero_crashes (a b : Int) :
    (b = 0 → eval_binary_op "/" (.int a) (.int b) = .crash) ∧
    (b ≠ 0 → eval_binary_op "/" (.int a) (.int b) = .ok (.int (Int.fdiv a b))) ∧
    (∀ k m, eval_binary_op "/" (.int a) (.int b) ≠ .err k m) := by
  refine ⟨fun h => by simp [eval_binary_op, h], fun h => by simp [eval_binary_op, h], ?_⟩
  intro k m
  by_cases h : b = 0 <;> simp [eval_binary_op, h]

theorem c9_div_zero_crashes_witness :
    eval_binary_op "/" (Value.int 1) (Value.int 0) = Outcome.crash :=
  (c9_div_zero_crashes 1 0).1 rfl

/-! ### C10: print stringification -/

/-- An interpreter state with nothing in it (used to instantiate
state-polymorphic theorems at a concrete input). -/
def emptyInterp : Interp :=
  { env := [], store := { next := 0, mem := fun _ => .voidV }, heap := [],
    funcs := [], interfaces := [] }

/-- C10: `print` concatenates all arguments into one line; a nil-valued
Object or Function argument contributes Python's `str(None)`, the text
`None`; only Bool arguments get the special lowercase rendering, all other
tags are stringified directly. -/
theorem c10_print_nil_renders_none (s : Interp) (fnRepr : FunctionValue → String)
    (vals : List Value) (v : Value) :
    printLine fnRepr (v :: vals) = printArg fnRepr v ++ printLine fnRepr vals ∧
    printArg fnRepr (.object none) = "None" ∧
    printArg fnRepr (.function none) = "None" ∧
    printArg fnRepr (.bool true) = "true" ∧
    printArg fnRepr (.bool false) = "false" ∧
    (tagOf v ≠ .bool → printArg fnRepr v = pyStrPayload fnRepr v) ∧
    run_fcall_decide s fnRepr "print" (v :: vals) =
      .ok (.printed (printLine fnRepr (v :: vals))) := by
  refine ⟨rfl, rfl, rfl, rfl, rfl, ?_, ?_⟩
  · intro h
    simp [printArg, h]
  · simp [run_fcall_decide]

theorem c10_print_nil_renders_none_witness :
    printArg (fun _ => "fn") (Value.int 5) = pyStrPayload (fun _ => "fn") (Value.int 5) ∧
    printArg (fun _ => "fn") (Value.object none) = "None" := by
  have h := c10_print_nil_renders_none emptyInterp (fun _ => "fn") [] (Value.int 5)
  exact ⟨h.2.2.2.2.2.1 (by decide), h.2.1⟩

/-! ### C8: Void arguments vs the built-in short-circuit -/

/-- C8 counterexample: the claim says a Void-valued argument causes a Type
error for every call including `print`; but `print` short-circuits BEFORE
the Void check, and `__handle_print` stringifies the Void payload, emitting
`None` with no error at all. -/
theorem c8_print_void_counterexample :
    run_fcall_decide emptyInterp (fun _ => "") "print" [Value.voidV] =
      Outcome.ok (.printed "None") := by decide

/-- C8 (amended): the Void-argument Type error guards only calls that are
not routed to the built-ins; `print` (and the prompt printing of
`inputi`/`inputs`) accepts any values, stringifying them into the line. -/
theorem c8_void_check_skips_builtins (s : Interp) (fnRepr : FunctionValue → String)
    (name : String) (vals : List Value)
    (h1 : name ≠ "inputi") (h2 : name ≠ "inputs") (h3 : name ≠ "print")
    (hv : ∃ v ∈ vals, tagOf v = .void) :
    run_fcall_decide s fnRepr name vals =
      .err .typeErr "void value cannot be used as argument" ∧
    (∀ vs, run_fcall_decide s fnRepr "print" vs = .ok (.printed (printLine fnRepr vs))) ∧
    (∀ v, handle_input fnRepr true [v] = .ok (.inputRead true (some (printLine fnRepr [v])))) := by
  obtain ⟨v, hm, ht⟩ := hv
  refine ⟨?_, fun vs => by simp [run_fcall_decide], fun w => rfl⟩
  have hany : vals.any (fun a => decide (tagOf a = .void)) = true :=
    List.any_eq_true.mpr ⟨v, hm, by simp [ht]⟩
  simp [run_fcall_decide, h1, h2, h3, hany]

theorem c8_void_check_skips_builtins_witness :
    run_fcall_decide emptyInterp (fun _ => "") "foo" [Value.voidV] =
      Outcome.err .typeErr "void value cannot be used as argument" :=
  (c8_void_check_skips_builtins emptyInterp (fun _ => "") "foo" [Value.voidV]
    (by decide) (by decide) (by decide) ⟨Value.voidV, by simp, rfl⟩).1

/-! ### C5: overload resolution -/

theorem argAccepted_iff (p : Ty) (a : Value) :
    argAccepted p a = true ↔
      ((is_nil_value a = true ∧ (p = .object ∨ p = .function)) ∨
       (is_nil_value a = false ∧ p = tagOf a)) := by
  by_cases h : is_nil_value a = true
  · simp [argAccepted, h]
  · simp only [Bool.not_eq_true] at h
    simp [argAccepted, h]

theorem argsMatchParams_forall2 (ps : List Ty) (vs : List Value)
    (h : ps.length = vs.length) :
    argsMatchParams ps vs = true ↔
      List.Forall₂ (fun p a => argAccepted p a = true) ps vs := by
  induction ps generalizing vs with
  | nil =>
    cases vs with
    | nil => simp [argsMatchParams]
    | cons v vs => simp at h
  | cons p ps ih =>
    cases vs with
    | nil => simp at h
    | cons v vs =>
      simp only [List.length_cons, Nat.succ.injEq] at h
      rw [argsMatchParams]
      simp [List.forall₂_cons, Bool.and_eq_true, ih vs h]

/-- C5: overload resolution for a non-dotted, non-built-in, non-bound call
name picks function-table entries with equal name, equal arity and
position-wise `argAccepted` (nil-valued Object/Function arguments match
any Object- or Function-typed parameter); no candidate and multiple
candidates are both Name errors, a unique candidate is invoked
statically. -/
theorem c5_overload_resolution (funcs : List ((String × List Ty) × FuncDef))
    (name : String) (vals : List Value) :
    (∀ key fd, overloadEntryMatch name vals (key, fd) = true ↔
        key.1 = name ∧ key.2.length = vals.length ∧
          List.Forall₂ (fun p a => argAccepted p a = true) key.2 vals) ∧
    (∀ p a, argAccepted p a = true ↔
        ((is_nil_value a = true ∧ (p = .object ∨ p = .function)) ∨
         (is_nil_value a = false ∧ p = tagOf a))) ∧
    (overloadCandidates funcs name vals = [] →
        resolveOverload funcs name vals = .err .nameErr "function not found") ∧
    (∀ fd, overloadCandidates funcs name vals = [fd] →
        resolveOverload funcs name vals = .ok fd) ∧
    (2 ≤ (overloadCandidates funcs name vals).length →
        resolveOverload funcs name vals = .err .nameErr "ambiguous function call") ∧
    (∀ (s : Interp) (fnRepr : FunctionValue → String),
        name ≠ "print" → name ≠ "inputi" → name ≠ "inputs" →
        containsDot name = false → env_exists s.env name = false →
        (∀ v ∈ vals, tagOf v ≠ .void) →
        run_fcall_decide s fnRepr name vals =
          Outcome.bind (resolveOverload s.funcs name vals)
            (fun fd => .ok (.invokeStatic fd))) := by
  refine ⟨?_, argAccepted_iff, ?_, ?_, ?_, ?_⟩
  · intro key fd
    unfold overloadEntryMatch
    simp only [Bool.and_eq_true, decide_eq_true_eq]
    constructor
    · rintro ⟨⟨hn, hl⟩, hm⟩
      exact ⟨hn, hl, (argsMatchParams_forall2 _ _ hl).mp hm⟩
    · rintro ⟨hn, hl, hf⟩
      exact ⟨⟨hn, hl⟩, (argsMatchParams_forall2 _ _ hl).mpr hf⟩
  · intro h
    simp [resolveOverload, h]
  · intro fd h
    simp [resolveOverload, h]
  · intro h
    rcases hl : overloadCandidates funcs name vals with _ | ⟨a, _ | ⟨b, l⟩⟩
    · rw [hl] at h
      simp at h
    · rw [hl] at h
      simp at h
    · simp [resolveOverload, hl]
  · intro s fnRepr h1 h2 h3 hdot hex hv
    have hany : vals.any (fun a => decide (tagOf a = .void)) = false := by
      simp only [List.any_eq_false, decide_eq_true_eq]
      exact hv
    simp [run_fcall_decide, h1, h2, h3, hdot, hex, hany, Outcome.bind, Bind.bind]
    rfl

/-- Function-table fixture for the overload witness: two overloads of `f`,
one on Int, one on String. -/
def fdInt : FuncDef :=
  { astId := 1, isFuncNode := false, name := "f",
    args := [{ name := "xi", ref := false, declaredType := .int, interface := none }],
    returnType := .void, returnInterface := none, paramTypes := [.int] }
def fdStr : FuncDef :=
  { astId := 2, isFuncNode := false, name := "f",
    args := [{ name := "xs", ref := false, declaredType := .string, interface := none }],
    returnType := .void, returnInterface := none, paramTypes := [.string] }
def funcs5 : List ((String × List Ty) × FuncDef) :=
  [(("f", [.int]), fdInt), (("f", [.string]), fdStr)]

theorem c5_overload_resolution_witness :
    resolveOverload funcs5 "f" [Value.int 1] = Outcome.ok fdInt ∧
    resolveOverload funcs5 "f" [Value.str "x"] = Outcome.ok fdStr ∧
    run_fcall_decide { emptyInterp with funcs := funcs5 } (fun _ => "") "f"
        [Value.int 1] = Outcome.ok (.invokeStatic fdInt) := by
  have h1 := c5_overload_resolution funcs5 "f" [Value.int 1]
  have h2 := c5_overload_resolution funcs5 "f" [Value.str "x"]
  refine ⟨h1.2.2.2.1 fdInt (by decide), h2.2.2.2.1 fdStr (by decide), ?_⟩
  have hd := h1.2.2.2.2.2 { emptyInterp with funcs := funcs5 } (fun _ => "")
    (by decide) (by decide) (by decide) (by decide) (by decide) (by decide)
  rw [hd]
  have : resolveOverload funcs5 "f" [Value.int 1] = Outcome.ok fdInt :=
    h1.2.2.2.1 fdInt (by decide)
  rw [show ({ emptyInterp with funcs := funcs5 } : Interp).funcs = funcs5 from rfl, this]
  rfl

/-! ### C6: dotted-chain errors -/

theorem Outcome.ok_bind {α β : Type} (a : α) (f : α → Outcome β) :
    Outcome.bind (.ok a) f = f a := rfl

theorem Outcome.err_bind {α β : Type} (k : ErrKind) (m : String) (f : α → Outcome β) :
    Outcome.bind (.err k m) f = .err k m := rfl

theorem Outcome.bind_def {α β : Type} (x : Outcome α) (f : α → Outcome β) :
    (x >>= f) = Outcome.bind x f := rfl

theorem Outcome.pure_def {α : Type} (a : α) : (pure a : Outcome α) = .ok a := rfl

/-- The rest of an owner-walk starting from a non-Object value is a Type
error, whether there are more intermediates or only the final segment
left (both unfoldings begin with the `!= Type.OBJECT` check). -/
theorem ownerResolve_nonobject (s : Interp) (v : Value) (ow : Option Value)
    (rest : List String) (fin : String) (h : tagOf v ≠ .object) :
    ∃ m, ownerResolve s v ow rest fin = .err .typeErr m := by
  cases rest with
  | nil =>
    cases v with
    | object oi => exact absurd rfl h
    | int n => exact ⟨_, rfl⟩
    | str a => exact ⟨_, rfl⟩
    | bool b => exact ⟨_, rfl⟩
    | voidV => exact ⟨_, rfl⟩
    | function g => exact ⟨_, rfl⟩
  | cons f fs =>
    cases v with
    | object oi => exact absurd rfl h
    | int n => exact ⟨_, rfl⟩
    | str a => exact ⟨_, rfl⟩
    | bool b => exact ⟨_, rfl⟩
    | voidV => exact ⟨_, rfl⟩
    | function g => exact ⟨_, rfl⟩

/-- C6 (amended): each intermediate segment of a dotted resolution — in
the read/write walk (`interStep`, used by `get_qname_cell` and
`set_qname_value`) and in the dotted-call walk (`ownerResolve`, used by
`get_qname_cell_and_owner`) — requires a non-nil Object current value
(Type error for a non-Object, Fault error for nil / a dangling id), and an
absent field is a Name error.  The trailing-suffix Object requirement with
its Type error holds in the read/write walk only: the dotted-call walk
performs NO suffix check (the suffix merely decides the owner update, see
the step-equation conjunct), so a non-Object-suffixed intermediate errs
there only indirectly, when the value it stores is itself not an Object;
`type_from_name`'s own errors (e.g. a `v` suffix) propagate in both
walks. -/
theorem c6_dotted_intermediate_checks (s : Interp) (v : Value) (f : String)
    (fs : List String) (fin : String) (ow : Option Value) :
    (tagOf v ≠ .object →
      interStep s v f = .err .typeErr "intermediate of da dot is not an object" ∧
      ∃ m, ownerResolve s v ow (f :: fs) fin = .err .typeErr m) ∧
    (interStep s (.object none) f = .err .faultErr "nil derefeerence in dotted access" ∧
      ownerResolve s (.object none) ow (f :: fs) fin =
        .err .faultErr "nil derefeerence in dotted access") ∧
    (∀ oid, heapGet s.heap oid = none →
      interStep s (.object (some oid)) f = .err .faultErr "invalid object reference" ∧
      ownerResolve s (.object (some oid)) ow (f :: fs) fin =
        .err .faultErr "invalid object reference") ∧
    (∀ oid flds, heapGet s.heap oid = some flds → alookup flds f = none →
      interStep s (.object (some oid)) f = .err .nameErr "field not defined" ∧
      ownerResolve s (.object (some oid)) ow (f :: fs) fin =
        .err .nameErr "field not defined") ∧
    (∀ oid flds c t, heapGet s.heap oid = some flds → alookup flds f = some c →
      type_from_name f = .ok t → t ≠ .object →
      interStep s (.object (some oid)) f =
        .err .typeErr "intermediate dotted field must be object typed") ∧
    (∀ k m oid flds c, type_from_name f = .err k m → heapGet s.heap oid = some flds →
      alookup flds f = some c →
      interStep s (.object (some oid)) f = .err k m ∧
      ∃ ow2, Outcome.bind (ownerStep s (.object (some oid)) ow f)
        (fun p => ownerResolve s p.1 p.2 fs fin) = .err k m ∧ ow2 = ow) ∧
    (∀ oid flds c t, heapGet s.heap oid = some flds → alookup flds f = some c →
      type_from_name f = .ok t →
      ownerResolve s (.object (some oid)) ow (f :: fs) fin =
        ownerResolve s (s.store.mem c)
          (if t = .object then some (s.store.mem c) else ow) fs fin) ∧
    (∀ oid flds c t, heapGet s.heap oid = some flds → alookup flds f = some c →
      type_from_name f = .ok t → t ≠ .object → tagOf (s.store.mem c) ≠ .object →
      ∃ m, ownerResolve s (.object (some oid)) ow (f :: fs) fin = .err .typeErr m) := by
  have hstep : ∀ oid flds c t, heapGet s.heap oid = some flds → alookup flds f = some c →
      type_from_name f = .ok t →
      ownerResolve s (.object (some oid)) ow (f :: fs) fin =
        ownerResolve s (s.store.mem c)
          (if t = .object then some (s.store.mem c) else ow) fs fin := by
    intro oid flds c t hg ha htf
    simp [ownerResolve, ownerStep, hg, ha, htf, Outcome.ok_bind]
    rfl
  refine ⟨?_, ⟨rfl, rfl⟩, ?_, ?_, ?_, ?_, hstep, ?_⟩
  · intro h
    refine ⟨?_, ownerResolve_nonobject s v ow (f :: fs) fin h⟩
    cases v with
    | object oi => exact absurd rfl h
    | int n => rfl
    | str a => rfl
    | bool b => rfl
    | voidV => rfl
    | function g => rfl
  · intro oid hg
    constructor
    · simp [interStep, hg]
    · simp [ownerResolve, ownerStep, hg, Outcome.err_bind]
      rfl
  · intro oid flds hg ha
    constructor
    · simp [interStep, hg, ha]
    · simp [ownerResolve, ownerStep, hg, ha, Outcome.err_bind]
      rfl
  · intro oid flds c t hg ha htf hto
    simp [interStep, hg, ha, htf, hto, Outcome.bind_def, Outcome.ok_bind]
  · intro k m oid flds c htf hg ha
    constructor
    · simp [interStep, hg, ha, htf, Outcome.err_bind]
      rfl
    · refine ⟨ow, ?_, rfl⟩
      simp [ownerStep, hg, ha, htf, Outcome.err_bind]
      rfl
  · intro oid flds c t hg ha htf hto hnv
    rw [hstep oid flds c t hg ha htf]
    exact ownerResolve_nonobject s (s.store.mem c) _ fs fin hnv

/-- Fixture for the C6 witness: object 1 has an Int-suffixed field `bi`
(cell 0, holding `Int 5`); object 2 is empty. -/
def c6State : Interp :=
  { env := [],
    store := { next := 2, mem := fun i => if i = 0 then .int 5 else .object (some 2) },
    heap := [(1, [("bi", 0)]), (2, [])], funcs := [], interfaces := [] }

theorem c6_dotted_intermediate_checks_witness :
    (∃ m, ownerResolve c6State (Value.object (some 1)) none ["bi"] "co" =
      Outcome.err .typeErr m) ∧
    interStep c6State (Value.object (some 1)) "bi" =
      Outcome.err .typeErr "intermediate dotted field must be object typed" ∧
    interStep c6State (Value.int 5) "bi" =
      Outcome.err .typeErr "intermediate of da dot is not an object" := by
  have h := c6_dotted_intermediate_checks c6State (Value.object (some 1)) "bi" [] "co" none
  have h2 := c6_dotted_intermediate_checks c6State (Value.int 5) "bi" [] "co" none
  refine ⟨h.2.2.2.2.2.2.2 1 [("bi", 0)] 0 .int (by decide) (by decide)
      (by decide) (by decide) (by decide),
    h.2.2.2.2.1 1 [("bi", 0)] 0 .int (by decide) (by decide) (by decide) (by decide),
    (h2.1 (by decide)).1⟩

/-- Fixture for the C6 counterexample: the caller binds `ao` (cell 0) to
object 1, whose FUNCTION-suffixed field `xf` is cell 1 holding nil;
object 2 has a field `co` (cell 2). -/
def c6BugState : Interp :=
  { env := [[[("ao", 0)]]],
    store :=
      { next := 3,
        mem := fun i =>
          if i = 0 then .object (some 1)
          else if i = 1 then .function none
          else .int 7 },
    heap := [(1, [("xf", 1)]), (2, [("co", 2)])], funcs := [], interfaces := [] }

/-- An OBJECT-declared ref formal, about to alias the FUNCTION-suffixed
field cell. -/
def formalRo : Param :=
  { name := "ro", ref := true, declaredType := .object, interface := none }

/-- Callee environment after installing the ref binding `ro -> cell 1`. -/
def c6CalleeEnv : Env := [[[("ro", 1)]], [[("ao", 0)]]]

/-- The state after the callee assigned object 2 through the aliased
formal: heap field `xf` (cell 1) now holds an Object despite its Function
suffix. -/
def c6PostState : Interp :=
  { c6BugState with store := c6BugState.store.write 1 (Value.object (some 2)) }

/-- C6 counterexample: the claim's trailing-suffix Type error does NOT
hold for dotted calls.  The tag discipline is breakable through ref
binding: (i) the nil rewrap lets the OBJECT ref formal `ro` alias the
FUNCTION-suffixed heap field `ao.xf`; (ii) the callee's assignment then
stores an Object in that cell (the formal's own suffix check passes);
(iii) in the resulting state the dotted-call resolution of `ao.xf.co`
crosses the FUNCTION-suffixed intermediate `xf` with no error at all,
while (iv) the read walk on the very same state raises the Type error the
claim demands for every resolution. -/
theorem c6_owner_suffix_counterexample :
    bindParam c6BugState 9 formalRo (.qname "ao.xf") (Value.function none) =
      Outcome.ok (.ref "ro" 1) ∧
    set_qname_value { c6BugState with env := c6CalleeEnv } 9 "ro"
        (Value.object (some 2)) =
      Outcome.ok (c6BugState.store.write 1 (Value.object (some 2)), c6BugState.heap) ∧
    get_qname_cell_and_owner c6PostState "ao.xf.co" =
      Outcome.ok (2, some (Value.object (some 2))) ∧
    type_from_name "xf" = Outcome.ok Ty.function ∧
    get_qname_cell c6PostState "ao.xf.co" =
      Outcome.err .typeErr "intermediate dotted field must be object typed" := by
  refine ⟨by decide, rfl, by decide, by decide, by decide⟩

/-! ### C7: caller-side interface annotation on ref arguments -/

/-- Fixture: a ref formal `pP` demanding interface `P`; the caller binds a
plain object-typed variable `xo` (no interface annotation) holding nil. -/
def formal7 : Param :=
  { name := "pP", ref := true, declaredType := .object, interface := some "P" }
def s7 : Interp :=
  { env := [[[("xo", 0)]]], store := { next := 1, mem := fun _ => .object none },
    heap := [], funcs := [], interfaces := [] }

/-- C7 counterexample: the claim says a caller argument name carrying NO
interface is a Type error when the ref formal has one; the code's check
(`if arg_interface is not None and arg_interface != expected_interface`)
skips arguments without an annotation, so binding `xo` to the ref formal
`pP` succeeds. -/
theorem c7_no_interface_arg_counterexample :
    bindParam s7 9 formal7 (.qname "xo") (Value.object none) =
      Outcome.ok (.ref "pP" 0) := by decide

/-- C7 (amended): when the formal carries an interface, a caller
qualified-name argument whose own annotation is PRESENT and different is a
Type error regardless of the argument's value (the check never consults the
value); an argument name with no interface annotation passes the
caller-side check. -/
theorem c7_ref_interface_annotation_check (I J nm : String) :
    (interface_for_qname nm = .ok (some J) → J ≠ I →
      refInterfaceCheck (some I) nm =
        .err .typeErr "argument interface mismatch on ref arg") ∧
    (interface_for_qname nm = .ok none → refInterfaceCheck (some I) nm = .ok ()) ∧
    (∀ (s : Interp) (fuel : Nat) (formal : Param) (argVal bindVal : Value),
      formal.ref = true → formal.interface = some I →
      valueChecks s fuel formal argVal = .ok bindVal →
      interface_for_qname nm = .ok (some J) → J ≠ I →
      bindParam s fuel formal (.qname nm) argVal =
        .err .typeErr "argument interface mismatch on ref arg") := by
  refine ⟨?_, ?_, ?_⟩
  · intro h hne
    have hso : (some J ≠ some I) := by simp [hne]
    simp [refInterfaceCheck, h, hso, Outcome.bind_def, Outcome.ok_bind]
  · intro h
    simp [refInterfaceCheck, h, Outcome.bind_def, Outcome.ok_bind, Outcome.pure_def]
  · intro s fuel formal argVal bindVal href hI hv h hne
    have hr : refInterfaceCheck formal.interface nm =
        .err .typeErr "argument interface mismatch on ref arg" := by
      rw [hI]
      have hso : (some J ≠ some I) := by simp [hne]
      simp [refInterfaceCheck, h, hso, Outcome.bind_def, Outcome.ok_bind]
    simp [bindParam, hv, href, hr, Outcome.bind_def, Outcome.ok_bind, Outcome.err_bind]

theorem c7_ref_interface_annotation_check_witness :
    refInterfaceCheck (some "P") "xQ" =
      Outcome.err .typeErr "argument interface mismatch on ref arg" ∧
    refInterfaceCheck (some "P") "xo" = Outcome.ok () ∧
    bindParam s7 9 formal7 (.qname "xQ") (Value.object none) =
      Outcome.err .typeErr "argument interface mismatch on ref arg" := by
  have h := c7_ref_interface_annotation_check "P" "Q" "xQ"
  have h2 := c7_ref_interface_annotation_check "P" "Q" "xo"
  exact ⟨h.1 (by decide) (by decide), h2.2.1 (by decide),
    h.2.2 s7 9 formal7 (Value.object none) (Value.object none) rfl rfl (by decide)
      (by decide) (by decide)⟩

/-! ### C2: closure capture lemmas -/

theorem captureCopy_eq (v : Value) : captureCopy v = v := by
  unfold captureCopy
  split <;> rfl

theorem alloc_next (st : Store) (v : Value) : (st.alloc v).1.next = st.next + 1 := rfl

theorem alloc_mem_lt (st : Store) (v : Value) (i : Nat) (h : i < st.next) :
    (st.alloc v).1.mem i = st.mem i := by
  simp only [Store.alloc]
  exact if_neg (Nat.ne_of_lt h)

theorem alloc_mem_self (st : Store) (v : Value) :
    (st.alloc v).1.mem st.next = v := by
  simp [Store.alloc]

theorem captureBlock_ext (b : Block) (st : Store) :
    st.next ≤ (captureBlock st b).2.next ∧
    ∀ i, i < st.next → (captureBlock st b).2.mem i = st.mem i := by
  induction b generalizing st with
  | nil => exact ⟨Nat.le_refl _, fun i _ => rfl⟩
  | cons p rest ih =>
    obtain ⟨n, c⟩ := p
    simp only [captureBlock]
    obtain ⟨ih1, ih2⟩ := ih (st.alloc (captureCopy (st.mem c))).1
    constructor
    · calc st.next ≤ st.next + 1 := Nat.le_succ _
        _ = (st.alloc (captureCopy (st.mem c))).1.next := (alloc_next _ _).symm
        _ ≤ _ := ih1
    · intro i hi
      rw [ih2 i (by rw [alloc_next]; exact Nat.lt_succ_of_lt hi)]
      exact alloc_mem_lt _ _ _ hi

theorem captureFrame_ext (f : Frame) (st : Store) :
    st.next ≤ (captureFrame st f).2.next ∧
    ∀ i, i < st.next → (captureFrame st f).2.mem i = st.mem i := by
  induction f generalizing st with
  | nil => exact ⟨Nat.le_refl _, fun i _ => rfl⟩
  | cons b bs ih =>
    simp only [captureFrame]
    obtain ⟨h1, h2⟩ := captureBlock_ext b st
    obtain ⟨ih1, ih2⟩ := ih (captureBlock st b).2
    refine ⟨Nat.le_trans h1 ih1, fun i hi => ?_⟩
    rw [ih2 i (Nat.lt_of_lt_of_le hi h1), h2 i hi]

theorem captureEnv_ext (e : Env) (st : Store) :
    st.next ≤ (capture_env_for_lambda st e).2.next ∧
    ∀ i, i < st.next → (capture_env_for_lambda st e).2.mem i = st.mem i := by
  induction e generalizing st with
  | nil => exact ⟨Nat.le_refl _, fun i _ => rfl⟩
  | cons f fs ih =>
    simp only [capture_env_for_lambda]
    obtain ⟨h1, h2⟩ := captureFrame_ext f st
    obtain ⟨ih1, ih2⟩ := ih (captureFrame st f).2
    refine ⟨Nat.le_trans h1 ih1, fun i hi => ?_⟩
    rw [ih2 i (Nat.lt_of_lt_of_le hi h1), h2 i hi]

theorem captureBlock_find_none (b : Block) (st : Store) (n : String)
    (h : alookup b n = none) : alookup (captureBlock st b).1 n = none := by
  induction b generalizing st with
  | nil => simp [captureBlock, alookup]
  | cons p rest ih =>
    obtain ⟨m, c⟩ := p
    rw [alookup] at h
    by_cases hm : m = n
    · simp [hm] at h
    · simp only [captureBlock, alookup, if_neg hm] at h ⊢
      exact ih _ h

theorem captureBlock_find (b : Block) (st : Store) (n : String) (c : Nat)
    (hwf : ∀ p ∈ b, p.2 < st.next) (h : alookup b n = some c) :
    ∃ c', alookup (captureBlock st b).1 n = some c' ∧
      st.next ≤ c' ∧ c' < (captureBlock st b).2.next ∧
      (captureBlock st b).2.mem c' = st.mem c := by
  induction b generalizing st with
  | nil => simp [alookup] at h
  | cons p rest ih =>
    obtain ⟨m, cc⟩ := p
    rw [alookup] at h
    by_cases hm : m = n
    · simp only [if_pos hm] at h
      injection h with h
      subst h
      refine ⟨st.next, ?_, Nat.le_refl _, ?_, ?_⟩
      · simp [captureBlock, alookup, hm, Store.alloc]
      · simp only [captureBlock]
        have := (captureBlock_ext rest (st.alloc (captureCopy (st.mem cc))).1).1
        rw [alloc_next] at this
        exact Nat.lt_of_lt_of_le (Nat.lt_succ_self _) this
      · simp only [captureBlock]
        have h2 := (captureBlock_ext rest (st.alloc (captureCopy (st.mem cc))).1).2
        rw [h2 st.next (by rw [alloc_next]; exact Nat.lt_succ_self _)]
        rw [alloc_mem_self, captureCopy_eq]
    · simp only [if_neg hm] at h
      have hwf' : ∀ p ∈ rest, p.2 < (st.alloc (captureCopy (st.mem cc))).1.next := by
        intro p hp
        rw [alloc_next]
        exact Nat.lt_succ_of_lt (hwf p (List.mem_cons_of_mem _ hp))
      obtain ⟨c', h1, h2, h3, h4⟩ := ih (st.alloc (captureCopy (st.mem cc))).1 hwf' h
      refine ⟨c', ?_, ?_, h3, ?_⟩
      · simp only [captureBlock, alookup, if_neg hm]
        exact h1
      · rw [alloc_next] at h2
        exact Nat.le_trans (Nat.le_succ _) h2
      · simp only [captureBlock]
        rw [h4]
        exact alloc_mem_lt _ _ _ (hwf (n, c) (List.mem_cons_of_mem _ (alookup_mem h)))

theorem frameFindAll_mem (f : Frame) (n : String) (c : Nat)
    (h : get_current_cell.frameFindAll f n = some c) : ∃ b ∈ f, (n, c) ∈ b := by
  induction f with
  | nil => simp [get_current_cell.frameFindAll] at h
  | cons b bs ih =>
    simp only [get_current_cell.frameFindAll] at h
    cases hb : blockFind b n with
    | some c0 =>
      rw [hb] at h
      injection h with h
      subst h
      exact ⟨b, List.mem_cons_self _ _, alookup_mem hb⟩
    | none =>
      rw [hb] at h
      obtain ⟨b', hb', hm⟩ := ih h
      exact ⟨b', List.mem_cons_of_mem _ hb', hm⟩

theorem get_current_cell_mem (e : Env) (n : String) (c : Nat)
    (h : get_current_cell e n = some c) : ∃ f ∈ e, ∃ b ∈ f, (n, c) ∈ b := by
  induction e with
  | nil => simp [get_current_cell] at h
  | cons f fs ih =>
    simp only [get_current_cell] at h
    cases hf : get_current_cell.frameFindAll f n with
    | some c0 =>
      rw [hf] at h
      have hc : c0 = c := by injection h
      rw [hc] at hf
      exact ⟨f, List.mem_cons_self _ _, frameFindAll_mem f n c hf⟩
    | none =>
      rw [hf] at h
      obtain ⟨f', hf', hm⟩ := ih h
      exact ⟨f', List.mem_cons_of_mem _ hf', hm⟩

theorem captureFrame_find_none (f : Frame) (st : Store) (n : String)
    (h : get_current_cell.frameFindAll f n = none) :
    get_current_cell.frameFindAll (captureFrame st f).1 n = none := by
  induction f generalizing st with
  | nil => simp [captureFrame, get_current_cell.frameFindAll]
  | cons b bs ih =>
    simp only [get_current_cell.frameFindAll] at h
    cases hb : blockFind b n with
    | some c0 => simp [hb] at h
    | none =>
      rw [hb] at h
      simp only [captureFrame, get_current_cell.frameFindAll]
      have hn : blockFind (captureBlock st b).1 n = none :=
        captureBlock_find_none b st n hb
      rw [hn]
      exact ih _ h

theorem captureFrame_find (f : Frame) (st : Store) (n : String) (c : Nat)
    (hwf : ∀ b ∈ f, ∀ p ∈ b, p.2 < st.next)
    (h : get_current_cell.frameFindAll f n = some c) :
    ∃ c', get_current_cell.frameFindAll (captureFrame st f).1 n = some c' ∧
      st.next ≤ c' ∧ c' < (captureFrame st f).2.next ∧
      (captureFrame st f).2.mem c' = st.mem c := by
  induction f generalizing st with
  | nil => simp [get_current_cell.frameFindAll] at h
  | cons b bs ih =>
    simp only [get_current_cell.frameFindAll] at h
    cases hb : blockFind b n with
    | some c0 =>
      rw [hb] at h
      have hc : c0 = c := by injection h
      rw [hc] at hb
      obtain ⟨c', h1, h2, h3, h4⟩ :=
        captureBlock_find b st n c (hwf b (List.mem_cons_self _ _)) hb
      have hext := captureFrame_ext bs (captureBlock st b).2
      refine ⟨c', ?_, h2, ?_, ?_⟩
      · simp only [captureFrame, get_current_cell.frameFindAll]
        rw [show blockFind (captureBlock st b).1 n = some c' from h1]
      · simp only [captureFrame]
        exact Nat.lt_of_lt_of_le h3 hext.1
      · simp only [captureFrame]
        rw [hext.2 c' h3, h4]
    | none =>
      rw [hb] at h
      have hwf' : ∀ b' ∈ bs, ∀ p ∈ b', p.2 < (captureBlock st b).2.next := by
        intro b' hb' p hp
        exact Nat.lt_of_lt_of_le (hwf b' (List.mem_cons_of_mem _ hb') p hp)
          (captureBlock_ext b st).1
      obtain ⟨c', h1, h2, h3, h4⟩ := ih (captureBlock st b).2 hwf' h
      have hclt : c < st.next := by
        obtain ⟨b', hb', hm⟩ := frameFindAll_mem bs n c h
        exact hwf b' (List.mem_cons_of_mem _ hb') (n, c) hm
      refine ⟨c', ?_, Nat.le_trans (captureBlock_ext b st).1 h2, ?_, ?_⟩
      · simp only [captureFrame, get_current_cell.frameFindAll]
        have hn : blockFind (captureBlock st b).1 n = none :=
          captureBlock_find_none b st n hb
        rw [hn]
        exact h1
      · simp only [captureFrame]
        exact h3
      · simp only [captureFrame]
        rw [h4]
        exact (captureBlock_ext b st).2 c hclt

theorem captureEnv_find (e : Env) (st : Store) (n : String) (c : Nat)
    (hwf : ∀ f ∈ e, ∀ b ∈ f, ∀ p ∈ b, p.2 < st.next)
    (h : get_current_cell e n = some c) :
    ∃ c', get_current_cell (capture_env_for_lambda st e).1 n = some c' ∧
      st.next ≤ c' ∧ c' < (capture_env_for_lambda st e).2.next ∧
      (capture_env_for_lambda st e).2.mem c' = st.mem c := by
  induction e generalizing st with
  | nil => simp [get_current_cell] at h
  | cons f fs ih =>
    simp only [get_current_cell] at h
    cases hf : get_current_cell.frameFindAll f n with
    | some c0 =>
      rw [hf] at h
      have hc : c0 = c := by injection h
      rw [hc] at hf
      obtain ⟨c', h1, h2, h3, h4⟩ :=
        captureFrame_find f st n c (hwf f (List.mem_cons_self _ _)) hf
      have hext := captureEnv_ext fs (captureFrame st f).2
      refine ⟨c', ?_, h2, ?_, ?_⟩
      · simp only [capture_env_for_lambda, get_current_cell]
        rw [h1]
      · simp only [capture_env_for_lambda]
        exact Nat.lt_of_lt_of_le h3 hext.1
      · simp only [capture_env_for_lambda]
        rw [hext.2 c' h3, h4]
    | none =>
      rw [hf] at h
      have hwf' : ∀ f' ∈ fs, ∀ b ∈ f', ∀ p ∈ b, p.2 < (captureFrame st f).2.next := by
        intro f' hf' b hb p hp
        exact Nat.lt_of_lt_of_le (hwf f' (List.mem_cons_of_mem _ hf') b hb p hp)
          (captureFrame_ext f st).1
      obtain ⟨c', h1, h2, h3, h4⟩ := ih (captureFrame st f).2 hwf' h
      have hclt : c < st.next := by
        obtain ⟨f', hf', b, hb, hm⟩ := get_current_cell_mem fs n c h
        exact hwf f' (List.mem_cons_of_mem _ hf') b hb (n, c) hm
      refine ⟨c', ?_, Nat.le_trans (captureFrame_ext f st).1 h2, ?_, ?_⟩
      · simp only [capture_env_for_lambda, get_current_cell]
        rw [captureFrame_find_none f st n hf]
        exact h1
      · simp only [capture_env_for_lambda]
        exact h3
      · simp only [capture_env_for_lambda]
        rw [h4]
        exact (captureFrame_ext f st).2 c hclt

/-- Every cell index bound anywhere in the environment is a live cell of
the store. -/
def envWF (e : Env) (st : Store) : Prop :=
  ∀ f ∈ e, ∀ b ∈ f, ∀ p ∈ b, p.2 < st.next

instance (e : Env) (st : Store) : Decidable (envWF e st) := by
  unfold envWF
  infer_instance

/-- C2: evaluating a lambda snapshots the environment into FRESH cells
(`st.next ≤ c'`): the snapshot cell holds the captured binding's value at
capture time; a later reassignment of the original binding (which writes
the original cell `c`, both via `Environment.set` and via the live
`set_qname_value` path through `get_current_cell`) leaves the snapshot
cell's contents unchanged; and for an Object binding the snapshot holds
the SAME heap id, so mutations through the shared heap object remain
visible to the lambda. -/
theorem c2_lambda_capture_snapshot (e : Env) (st : Store) (n : String) (c : Nat)
    (hwf : envWF e st) (h : get_current_cell e n = some c) :
    ∃ c', get_current_cell (capture_env_for_lambda st e).1 n = some c' ∧
      st.next ≤ c' ∧
      (capture_env_for_lambda st e).2.mem c' = st.mem c ∧
      (∀ v, ((capture_env_for_lambda st e).2.write c v).mem c' = st.mem c) ∧
      (∀ v st2, (st2 : Store).next = st.next →
        env_set e n v st2 = some (st2.write c v)) ∧
      (∀ oid, st.mem c = .object (some oid) →
        (capture_env_for_lambda st e).2.mem c' = .object (some oid)) := by
  obtain ⟨c', h1, h2, h3, h4⟩ := captureEnv_find e st n c hwf h
  have hclt : c < st.next := by
    obtain ⟨f, hf, b, hb, hm⟩ := get_current_cell_mem e n c h
    exact hwf f hf b hb (n, c) hm
  have hne : c' ≠ c := Nat.ne_of_gt (Nat.lt_of_lt_of_le hclt h2)
  refine ⟨c', h1, h2, h4, ?_, ?_, ?_⟩
  · intro v
    simp only [Store.write]
    rw [if_neg hne]
    exact h4
  · intro v st2 _
    simp [env_set, h]
  · intro oid hobj
    rw [h4, hobj]

/-- Fixture for the C2 witness: one frame, one block, `xi` in cell 0
holding `Int 1`. -/
def c2Env : Env := [[[("xi", 0)]]]
def c2Store : Store := { next := 1, mem := fun _ => .int 1 }

theorem c2_lambda_capture_snapshot_witness :
    ∃ c', get_current_cell (capture_env_for_lambda c2Store c2Env).1 "xi" = some c' ∧
      c2Store.next ≤ c' ∧
      (capture_env_for_lambda c2Store c2Env).2.mem c' = c2Store.mem 0 ∧
      (∀ v, ((capture_env_for_lambda c2Store c2Env).2.write 0 v).mem c' = c2Store.mem 0) ∧
      (∀ v st2, (st2 : Store).next = c2Store.next →
        env_set c2Env "xi" v st2 = some (st2.write 0 v)) ∧
      (∀ oid, c2Store.mem 0 = .object (some oid) →
        (capture_env_for_lambda c2Store c2Env).2.mem c' = .object (some oid)) :=
  c2_lambda_capture_snapshot c2Env c2Store "xi" 0 (by decide) (by decide)

/-! ### C3: ref parameters share the caller's cell -/

theorem installGo_find (bs : List Binding) (rest : Env) (st : Store) (b : Block)
    (e' : Env) (st' : Store)
    (h : installBindings.go (([b] : Frame) :: rest) st bs = .ok (e', st')) :
    ∃ b', e' = ([b'] : Frame) :: rest ∧
      (∀ p c, Binding.ref p c ∈ bs → alookup b' p = some c) ∧
      (∀ p c, alookup b p = some c → alookup b' p = some c) ∧
      ((∀ x ∈ bs, ∃ p c, x = Binding.ref p c) → st' = st) := by
  induction bs generalizing b st with
  | nil =>
    simp only [installBindings.go, Outcome.pure_def] at h
    injection h with h
    injection h with h1 h2
    exact ⟨b, h1.symm, by simp, fun _ _ hp => hp, fun _ => h2.symm⟩
  | cons x bsrest ih =>
    have hform : ∀ q, exists_in_function_scope (([b] : Frame) :: rest) q =
        (alookup b q).isSome := fun _ => rfl
    cases x with
    | ref p c =>
      simp only [installBindings.go] at h
      cases hb : alookup b p with
      | some d =>
        have hnone : fdef_function_cell (([b] : Frame) :: rest) p c = none := by
          simp [fdef_function_cell, hform p, hb]
        rw [hnone] at h
        exact absurd h (by simp)
      | none =>
        have hd : fdef_function_cell (([b] : Frame) :: rest) p c =
            some ((([b ++ [(p, c)]] : Frame) :: rest)) := by
          simp [fdef_function_cell, hform p, hb]
          rfl
        rw [hd] at h
        replace h : installBindings.go (([b ++ [(p, c)]] : Frame) :: rest) st bsrest =
            .ok (e', st') := h
        obtain ⟨b', hb1, hb2, hb3, hb4⟩ := ih st (b ++ [(p, c)]) h
        refine ⟨b', hb1, ?_, ?_, ?_⟩
        · intro q d hq
          rcases List.mem_cons.mp hq with heq | hmem
          · injection heq with hq1 hq2
            subst hq1
            subst hq2
            apply hb3
            rw [alookup_append_right _ hb]
            simp [alookup]
          · exact hb2 q d hmem
        · intro q d hq
          exact hb3 q d (alookup_append_left _ hq)
        · intro hall
          exact hb4 (fun x hx => hall x (List.mem_cons_of_mem _ hx))
    | val p v =>
      simp only [installBindings.go] at h
      cases hb : alookup b p with
      | some d =>
        have hnone : fdef_function (([b] : Frame) :: rest) st p v = none := by
          simp [fdef_function, hform p, hb]
        rw [hnone] at h
        exact absurd h (by simp)
      | none =>
        have hd : fdef_function (([b] : Frame) :: rest) st p v =
            some ((([b ++ [(p, st.next)]] : Frame) :: rest), (st.alloc v).1) := by
          simp [fdef_function, hform p, hb]
          rfl
        rw [hd] at h
        replace h : installBindings.go (([b ++ [(p, st.next)]] : Frame) :: rest)
            (st.alloc v).1 bsrest = .ok (e', st') := h
        obtain ⟨b', hb1, hb2, hb3, hb4⟩ := ih (st.alloc v).1 (b ++ [(p, st.next)]) h
        refine ⟨b', hb1, ?_, ?_, ?_⟩
        · intro q d hq
          rcases List.mem_cons.mp hq with heq | hmem
          · exact absurd heq (by simp)
          · exact hb2 q d hmem
        · intro q d hq
          exact hb3 q d (alookup_append_left _ hq)
        · intro hall
          obtain ⟨q, d, hqd⟩ := hall _ (List.mem_cons_self _ _)
          exact absurd hqd (by simp)

/-- C3: a ref formal demands a qualified-name actual (Type error for any
other expression shape, once the value-stage checks passed); the binding
carries exactly the cell `get_qname_cell` resolved from the caller's name;
activation installs that SAME cell (no allocation) into the callee frame,
so the callee's plain-name assignment path (`set_qname_value` via
`get_current_cell`) writes the caller's cell, and the caller reads the new
value through it after the call. -/
theorem c3_ref_param_aliasing (s : Interp) (fuel : Nat) (formal : Param)
    (argVal bindVal : Value) (nm : String) (c : Nat)
    (href : formal.ref = true)
    (hv : valueChecks s fuel formal argVal = .ok bindVal) :
    (bindParam s fuel formal .other argVal =
      .err .typeErr "ref argument must be a variable") ∧
    (formal.interface = none → get_qname_cell s nm = .ok c →
      bindParam s fuel formal (.qname nm) argVal = .ok (.ref formal.name c)) ∧
    (∀ e st bs e' st', installBindings e st bs none = .ok (e', st') →
      Binding.ref formal.name c ∈ bs → get_current_cell e' formal.name = some c) ∧
    (∀ e st e' st',
      installBindings e st [Binding.ref formal.name c] none = .ok (e', st') →
      st' = st ∧ get_current_cell e' formal.name = some c) ∧
    (∀ (s2 : Interp) (v : Value) (t : Ty),
      splitOnDot formal.name = [formal.name] →
      get_current_cell s2.env formal.name = some c →
      type_from_name formal.name = .ok t →
      interface_from_name formal.name = .ok none →
      is_nil_value v = false → tagOf v = t →
      set_qname_value s2 fuel formal.name v = .ok (s2.store.write c v, s2.heap) ∧
      (s2.store.write c v).mem c = v) := by
  have hgo : ∀ e st bs, installBindings e st bs none =
      installBindings.go (([([] : Block)] : Frame) :: e) st bs := fun _ _ _ => rfl
  refine ⟨?_, ?_, ?_, ?_, ?_⟩
  · simp [bindParam, hv, href, Outcome.bind_def, Outcome.ok_bind]
  · intro hI hq
    simp [bindParam, hv, href, hq, refInterfaceCheck, hI, Outcome.bind_def,
      Outcome.ok_bind, Outcome.pure_def]
  · intro e st bs e' st' h hmem
    rw [hgo] at h
    obtain ⟨b', hb1, hb2, _, _⟩ := installGo_find bs e st [] e' st' h
    subst hb1
    simp [get_current_cell, get_current_cell.frameFindAll, blockFind,
      hb2 formal.name c hmem]
  · intro e st e' st' h
    rw [hgo] at h
    obtain ⟨b', hb1, hb2, _, hb4⟩ := installGo_find _ e st [] e' st' h
    subst hb1
    refine ⟨hb4 (by simp), ?_⟩
    simp [get_current_cell, get_current_cell.frameFindAll, blockFind,
      hb2 formal.name c (List.mem_cons_self _ _)]
  · intro s2 v t hsplit hgcc ht hifn hnil htag
    subst htag
    have hco : coerceForAssign (tagOf v) v = .ok v := by
      unfold coerceForAssign
      by_cases h1 : tagOf v = .object
      · simp [hnil, h1]
      · by_cases h2 : tagOf v = .function
        · simp [hnil, h1, h2]
        · simp [hnil, h1, h2]
    have hex : env_exists s2.env formal.name = true := by
      simp [env_exists, hgcc]
    constructor
    · unfold set_qname_value
      rw [hsplit]
      simp [hex, ht, hifn, hco, hgcc, checkAssignIface, Outcome.bind_def,
        Outcome.ok_bind, Outcome.pure_def]
    · simp [Store.write]

/-- Fixture for the C3 witness: caller frame binds `ai` to cell 0 (holding
`Int 41`); the ref formal is `xi`. -/
def formal3 : Param :=
  { name := "xi", ref := true, declaredType := .int, interface := none }
def s3 : Interp :=
  { env := [[[("ai", 0)]]], store := { next := 1, mem := fun _ => .int 41 },
    heap := [], funcs := [], interfaces := [] }
def c3CalleeEnv : Env := [[[("xi", 0)]], [[("ai", 0)]]]

theorem c3_ref_param_aliasing_witness :
    bindParam s3 9 formal3 (.qname "ai") (Value.int 41) =
      Outcome.ok (.ref "xi" 0) ∧
    get_current_cell c3CalleeEnv "xi" = some 0 ∧
    set_qname_value { s3 with env := c3CalleeEnv } 9 "xi" (Value.int 7) =
      Outcome.ok (s3.store.write 0 (Value.int 7), s3.heap) ∧
    (s3.store.write 0 (Value.int 7)).mem 0 = Value.int 7 := by
  have h := c3_ref_param_aliasing s3 9 formal3 (Value.int 41) (Value.int 41) "ai" 0
    rfl (by decide)
  have hinst : installBindings s3.env s3.store [Binding.ref "xi" 0] none =
      Outcome.ok (c3CalleeEnv, s3.store) := rfl
  have h5 := h.2.2.2.2 { s3 with env := c3CalleeEnv } (Value.int 7) .int
    (by decide) (by decide) (by decide) (by decide) (by decide) (by decide)
  exact ⟨h.2.1 rfl (by decide), (h.2.2.2.1 s3.env s3.store c3CalleeEnv s3.store
    hinst).2, h5.1, h5.2⟩
